import Mathlib

/-!
Verification of the ipwatch external-IP watcher (src/ipwatch.py, src/ipgetter.py).

Python strings are modelled as `List Char`.  The few Python string helpers the
program uses (`str.split(sep)`, `sep.join(xs)`, `str.strip()`) are given as
executable definitions below, together with the round-trip lemmas the state
store needs.
-/

set_option maxHeartbeats 1000000

namespace IpWatch

/-- Whitespace characters stripped by Python `str.strip()`: exactly the
codepoints for which `str.isspace()` holds — 9-13, 28-31, 32, 0x85, 0xA0,
0x1680, 0x2000-0x200A, 0x2028, 0x2029, 0x202F, 0x205F and 0x3000. -/
def isPySpace (c : Char) : Bool :=
  c.toNat == 32 || c.toNat == 9 || c.toNat == 10 || c.toNat == 13 ||
  c.toNat == 11 || c.toNat == 12 || c.toNat == 28 || c.toNat == 29 ||
  c.toNat == 30 || c.toNat == 31 || c.toNat == 133 || c.toNat == 160 ||
  c.toNat == 5760 || c.toNat == 8192 || c.toNat == 8193 || c.toNat == 8194 ||
  c.toNat == 8195 || c.toNat == 8196 || c.toNat == 8197 || c.toNat == 8198 ||
  c.toNat == 8199 || c.toNat == 8200 || c.toNat == 8201 || c.toNat == 8202 ||
  c.toNat == 8232 || c.toNat == 8233 || c.toNat == 8239 || c.toNat == 8287 ||
  c.toNat == 12288

/-- Python `s.strip()`: drop whitespace from both ends. -/
def pyStrip (s : List Char) : List Char :=
  ((s.dropWhile isPySpace).reverse.dropWhile isPySpace).reverse

/-- Python `s.split(sep)` for a one-character separator: always returns at least
one field, and `n` separators produce `n+1` fields. -/
def splitChar (sep : Char) : List Char → List (List Char)
  | [] => [[]]
  | c :: rest =>
    match splitChar sep rest with
    | [] => [[]]
    | h :: t => if c = sep then [] :: h :: t else (c :: h) :: t

/-- Python `sep.join(xs)` for a one-character separator. -/
def joinChar (sep : Char) : List (List Char) → List Char
  | [] => []
  | [x] => x
  | x :: xs => x ++ sep :: joinChar sep xs

theorem splitChar_ne_nil (sep : Char) (s : List Char) : splitChar sep s ≠ [] := by
  cases s with
  | nil => simp [splitChar]
  | cons c rest =>
    simp only [splitChar]
    cases h : splitChar sep rest with
    | nil => simp
    | cons h t =>
      by_cases hc : c = sep <;> simp [hc]

theorem joinChar_splitChar (sep : Char) (s : List Char) :
    joinChar sep (splitChar sep s) = s := by
  induction s with
  | nil => rfl
  | cons c rest ih =>
    simp only [splitChar]
    cases h : splitChar sep rest with
    | nil => exact absurd h (splitChar_ne_nil sep rest)
    | cons x t =>
      rw [h] at ih
      by_cases hc : c = sep
      · subst hc
        simp only [if_pos rfl]
        cases t with
        | nil => simpa [joinChar] using ih
        | cons y t2 => simpa [joinChar] using ih
      · simp only [if_neg hc]
        cases t with
        | nil => simpa [joinChar] using ih
        | cons y t2 => simpa [joinChar] using ih

theorem splitChar_not_mem (sep : Char) (a : List Char) (ha : sep ∉ a) :
    splitChar sep a = [a] := by
  induction a with
  | nil => rfl
  | cons c rest ih =>
    have hc : c ≠ sep := fun h => ha (h ▸ List.mem_cons_self c rest)
    have hrest : sep ∉ rest := fun h => ha (List.mem_cons_of_mem c h)
    simp only [splitChar, ih hrest]
    simp [hc]

theorem splitChar_append_sep (sep : Char) (a b : List Char) (ha : sep ∉ a) :
    splitChar sep (a ++ sep :: b) = a :: splitChar sep b := by
  induction a with
  | nil =>
    simp only [List.nil_append, splitChar]
    cases h : splitChar sep b with
    | nil => exact absurd h (splitChar_ne_nil sep b)
    | cons x t => simp
  | cons c rest ih =>
    have hc : c ≠ sep := fun h => ha (h ▸ List.mem_cons_self c rest)
    have hrest : sep ∉ rest := fun h => ha (List.mem_cons_of_mem c h)
    simp only [List.cons_append, splitChar, List.append_eq]
    rw [ih hrest]
    simp [hc]

theorem mem_joinChar (sep d : Char) (ps : List (List Char))
    (hd : d ∈ joinChar sep ps) : d = sep ∨ ∃ p ∈ ps, d ∈ p := by
  induction ps with
  | nil => simp [joinChar] at hd
  | cons x xs ih =>
    cases xs with
    | nil =>
      simp only [joinChar] at hd
      exact Or.inr ⟨x, List.mem_cons_self x [], hd⟩
    | cons y ys =>
      simp only [joinChar, List.mem_append, List.mem_cons] at hd
      rcases hd with hx | hsep | hrest
      · exact Or.inr ⟨x, List.mem_cons_self x _, hx⟩
      · exact Or.inl hsep
      · rcases ih hrest with h | ⟨p, hp, hdp⟩
        · exact Or.inl h
        · exact Or.inr ⟨p, List.mem_cons_of_mem x hp, hdp⟩

theorem pyStrip_eq_self (s : List Char)
    (h1 : ∀ c, s.head? = some c → isPySpace c = false)
    (h2 : ∀ c, s.getLast? = some c → isPySpace c = false) :
    pyStrip s = s := by
  cases s with
  | nil => rfl
  | cons a t =>
    have ha : isPySpace a = false := h1 a rfl
    have hdrop : (a :: t).dropWhile isPySpace = a :: t := by
      simp [List.dropWhile_cons, ha]
    unfold pyStrip
    rw [hdrop]
    rcases List.eq_nil_or_concat (a :: t) with h | ⟨l2, b, hl⟩
    · simp at h
    · rw [List.concat_eq_append] at hl
      have hb : isPySpace b = false := by
        apply h2
        rw [hl, List.getLast?_concat]
      rw [hl, List.reverse_append]
      simp only [List.reverse_cons, List.reverse_nil, List.nil_append, List.cons_append,
        List.dropWhile_cons, hb]
      simp

/-- Universal-newline translation performed by reading a file in text mode:
`\r\n` and a lone `\r` both come back as `\n`.  (Writing in text mode on the
POSIX platforms the program targets leaves the string unchanged, so
`updateoldip` needs no counterpart.) -/
def pyUnivNewlines : List Char → List Char
  | [] => []
  | [c] => if c = Char.ofNat 13 then [Char.ofNat 10] else [c]
  | c :: d :: rest =>
    if c = Char.ofNat 13 then
      if d = Char.ofNat 10 then Char.ofNat 10 :: pyUnivNewlines rest
      else Char.ofNat 10 :: pyUnivNewlines (d :: rest)
    else c :: pyUnivNewlines (d :: rest)

theorem pyUnivNewlines_eq_self (s : List Char) (h : Char.ofNat 13 ∉ s) :
    pyUnivNewlines s = s := by
  induction s with
  | nil => rfl
  | cons c rest ih =>
    have hc : c ≠ Char.ofNat 13 := fun he => h (he ▸ List.mem_cons_self c rest)
    have hrest : Char.ofNat 13 ∉ rest := fun hm => h (List.mem_cons_of_mem c hm)
    cases rest with
    | nil => simp [pyUnivNewlines, hc]
    | cons d rest2 =>
      simp only [pyUnivNewlines, if_neg hc]
      rw [ih hrest]

/-! ## Address validity (ipwatch.py `is_valid_ip` via `socket.inet_pton`)

`is_valid_ipv4_address` calls `socket.inet_pton(AF_INET, s)` (the
`inet_aton` fallback is dead on CPython).  `inet_pton` accepts exactly four
dot-separated decimal octets, each without leading zeros and at most 255.
`is_valid_ipv6_address` calls `inet_pton(AF_INET6, s)`; the model below follows
the C library parser: hex groups of one to four digits separated by single
colons, at most one `::` which must stand for at least one zero group, and an
optional trailing dotted-quad worth two groups, for a total of eight groups. -/

/-- Decimal digit, codepoints 48-57 (the regex class `[0-9]` and `isdigit`). -/
def chDigit (c : Char) : Bool :=
  decide (48 ≤ c.toNat) && decide (c.toNat ≤ 57)

/-- Hexadecimal digit as accepted inside an IPv6 group. -/
def chHex (c : Char) : Bool :=
  chDigit c || (decide (97 ≤ c.toNat) && decide (c.toNat ≤ 102)) ||
    (decide (65 ≤ c.toNat) && decide (c.toNat ≤ 70))

/-- Numeric value of a decimal digit character. -/
def digitVal (c : Char) : Nat := c.toNat - 48

/-- Value of a decimal digit string (`foldl`, exactly how a parser accumulates). -/
def decValue (p : List Char) : Nat := p.foldl (fun n c => n * 10 + digitVal c) 0

/-- One octet as `inet_pton(AF_INET)` accepts it: nonempty, all decimal digits,
no leading zero unless the octet is exactly `0`, and value at most 255. -/
def ptonOctet (p : List Char) : Bool :=
  !p.isEmpty && p.all chDigit &&
    (p.head? != some (Char.ofNat 48) || p.length == 1) &&
    decide (decValue p ≤ 255)

/-- ipwatch.py `is_valid_ipv4_address` (the `inet_pton(AF_INET, ...)` branch). -/
def is_valid_ipv4_address (s : List Char) : Bool :=
  let parts := splitChar (Char.ofNat 46) s
  parts.length == 4 && parts.all ptonOctet

/-- A hex group of an IPv6 literal: one to four hex digits. -/
def hexGroupOK (g : List Char) : Bool :=
  decide (1 ≤ g.length) && decide (g.length ≤ 4) && g.all chHex

/-- Splits the input at the first occurrence of `::`, if any. -/
def findDoubleColon : List Char → Option (List Char × List Char)
  | [] => none
  | [_] => none
  | c :: d :: rest =>
    if c = Char.ofNat 58 ∧ d = Char.ofNat 58 then some ([], rest)
    else (findDoubleColon (d :: rest)).map (fun pr => (c :: pr.1, pr.2))

/-- Sixteen-bit units contributed by a colon-separated group list where only
the final group may be a dotted quad (two units). `none` means malformed. -/
def unitsOf : List (List Char) → Option Nat
  | [] => some 0
  | [g] =>
    if hexGroupOK g then some 1
    else if is_valid_ipv4_address g then some 2
    else none
  | g :: g2 :: gs =>
    if hexGroupOK g then (unitsOf (g2 :: gs)).map (fun n => n + 1) else none

/-- Units of the part before a `::`: hex groups only. -/
def unitsLeft : List (List Char) → Option Nat
  | [] => some 0
  | g :: gs => if hexGroupOK g then (unitsLeft gs).map (fun n => n + 1) else none

/-- ipwatch.py `is_valid_ipv6_address` (`inet_pton(AF_INET6, ...)`). -/
def is_valid_ipv6_address (s : List Char) : Bool :=
  match findDoubleColon s with
  | none =>
    match unitsOf (splitChar (Char.ofNat 58) s) with
    | some u => u == 8
    | none => false
  | some (l, r) =>
    let lu := if l.isEmpty then some 0 else unitsLeft (splitChar (Char.ofNat 58) l)
    let ru := if r.isEmpty then some 0 else unitsOf (splitChar (Char.ofNat 58) r)
    match lu, ru with
    | some a, some b => decide (a + b ≤ 7)
    | _, _ => false

/-- ipwatch.py `is_valid_ip`. -/
def is_valid_ip (s : List Char) : Bool :=
  is_valid_ipv4_address s || is_valid_ipv6_address s

/-! Character-set facts about valid addresses, needed to show that a valid
address survives the comma-split and whitespace-strip of the state store. -/

theorem ptonOctet_chars (p : List Char) (h : ptonOctet p = true) :
    ∀ c ∈ p, chDigit c = true := by
  have hall : p.all chDigit = true := by
    simp only [ptonOctet, Bool.and_eq_true] at h
    exact h.1.1.2
  simpa [List.all_eq_true] using hall

theorem valid_ipv4_chars (s : List Char) (h : is_valid_ipv4_address s = true) :
    ∀ c ∈ s, chDigit c = true ∨ c = Char.ofNat 46 := by
  intro c hc
  simp only [is_valid_ipv4_address, Bool.and_eq_true] at h
  rw [← joinChar_splitChar (Char.ofNat 46) s] at hc
  rcases mem_joinChar _ _ _ hc with hdot | ⟨p, hp, hcp⟩
  · exact Or.inr hdot
  · have := h.2
    rw [List.all_eq_true] at this
    exact Or.inl (ptonOctet_chars p (this p hp) c hcp)

theorem hexGroupOK_chars (g : List Char) (h : hexGroupOK g = true) :
    ∀ c ∈ g, chHex c = true := by
  simp only [hexGroupOK, Bool.and_eq_true, List.all_eq_true] at h
  exact h.2

theorem unitsOf_chars (gs : List (List Char)) : ∀ u, unitsOf gs = some u →
    ∀ g ∈ gs, ∀ c ∈ g, chHex c = true ∨ c = Char.ofNat 46 := by
  induction gs with
  | nil => intro u h g hg; simp at hg
  | cons g rest ih =>
    intro u h g2 hg2 c hc
    cases rest with
    | nil =>
      simp only [List.mem_singleton] at hg2
      subst hg2
      simp only [unitsOf] at h
      by_cases hhex : hexGroupOK g2 = true
      · exact Or.inl (hexGroupOK_chars g2 hhex c hc)
      · rw [if_neg hhex] at h
        by_cases hv4 : is_valid_ipv4_address g2 = true
        · rcases valid_ipv4_chars g2 hv4 c hc with hd | hdot
          · exact Or.inl (by simp [chHex, hd])
          · exact Or.inr hdot
        · rw [if_neg hv4] at h; exact absurd h (by simp)
    | cons g3 rest2 =>
      simp only [unitsOf] at h
      by_cases hhex : hexGroupOK g = true
      · rw [if_pos hhex] at h
        rcases List.mem_cons.mp hg2 with rfl | hmem
        · exact Or.inl (hexGroupOK_chars g2 hhex c hc)
        · cases hu2 : unitsOf (g3 :: rest2) with
          | none => rw [hu2] at h; exact absurd h (by simp)
          | some u2 => exact ih u2 hu2 g2 hmem c hc
      · rw [if_neg hhex] at h; exact absurd h (by simp)

theorem unitsLeft_chars (gs : List (List Char)) : ∀ u, unitsLeft gs = some u →
    ∀ g ∈ gs, ∀ c ∈ g, chHex c = true := by
  induction gs with
  | nil => intro u h g hg; simp at hg
  | cons g rest ih =>
    intro u h g2 hg2 c hc
    simp only [unitsLeft] at h
    by_cases hhex : hexGroupOK g = true
    · rw [if_pos hhex] at h
      rcases List.mem_cons.mp hg2 with rfl | hmem
      · exact hexGroupOK_chars g2 hhex c hc
      · cases hu2 : unitsLeft rest with
        | none => rw [hu2] at h; exact absurd h (by simp)
        | some u2 => exact ih u2 hu2 g2 hmem c hc
    · rw [if_neg hhex] at h; exact absurd h (by simp)

theorem findDoubleColon_decomp (s : List Char) : ∀ l r : List Char,
    findDoubleColon s = some (l, r) →
    s = l ++ Char.ofNat 58 :: Char.ofNat 58 :: r := by
  induction s with
  | nil => intro l r h; simp [findDoubleColon] at h
  | cons c rest ih =>
    intro l r h
    cases rest with
    | nil => simp [findDoubleColon] at h
    | cons d rest2 =>
      simp only [findDoubleColon] at h
      by_cases hcd : c = Char.ofNat 58 ∧ d = Char.ofNat 58
      · rw [if_pos hcd] at h
        simp only [Option.some.injEq, Prod.mk.injEq] at h
        obtain ⟨hl, hr⟩ := h
        subst hl; subst hr
        obtain ⟨rfl, rfl⟩ := hcd
        simp
      · rw [if_neg hcd] at h
        cases hfd : findDoubleColon (d :: rest2) with
        | none => rw [hfd] at h; simp at h
        | some pr =>
          obtain ⟨a, b⟩ := pr
          rw [hfd] at h
          simp only [Option.map_some', Option.some.injEq, Prod.mk.injEq] at h
          obtain ⟨hl, hr⟩ := h
          subst hl; subst hr
          have h2 := ih a b hfd
          rw [List.cons_append]
          exact congrArg (c :: ·) h2

theorem valid_ipv6_chars (s : List Char) (h : is_valid_ipv6_address s = true) :
    ∀ c ∈ s, chHex c = true ∨ c = Char.ofNat 46 ∨ c = Char.ofNat 58 := by
  intro c hc
  simp only [is_valid_ipv6_address] at h
  cases hfd : findDoubleColon s with
  | none =>
    rw [hfd] at h
    cases hu : unitsOf (splitChar (Char.ofNat 58) s) with
    | none => rw [hu] at h; exact absurd h (by simp)
    | some u =>
      rw [← joinChar_splitChar (Char.ofNat 58) s] at hc
      rcases mem_joinChar _ _ _ hc with hcol | ⟨p, hp, hcp⟩
      · exact Or.inr (Or.inr hcol)
      · rcases unitsOf_chars _ u hu p hp c hcp with hx | hdot
        · exact Or.inl hx
        · exact Or.inr (Or.inl hdot)
  | some pr =>
    obtain ⟨l, r⟩ := pr
    rw [hfd] at h
    simp only at h
    have hs : s = l ++ Char.ofNat 58 :: Char.ofNat 58 :: r :=
      findDoubleColon_decomp s l r hfd
    cases hlu : (if l.isEmpty = true then some 0
        else unitsLeft (splitChar (Char.ofNat 58) l)) with
    | none => rw [hlu] at h; exact absurd h (by simp)
    | some a =>
    cases hru : (if r.isEmpty = true then some 0
        else unitsOf (splitChar (Char.ofNat 58) r)) with
    | none => rw [hlu, hru] at h; exact absurd h (by simp)
    | some b =>
    rw [hs] at hc
    rcases List.mem_append.mp hc with hcl | hcr
    · by_cases hle : l.isEmpty = true
      · rw [List.isEmpty_iff.mp hle] at hcl; simp at hcl
      · rw [if_neg hle] at hlu
        rw [← joinChar_splitChar (Char.ofNat 58) l] at hcl
        rcases mem_joinChar _ _ _ hcl with hcol | ⟨p, hp, hcp⟩
        · exact Or.inr (Or.inr hcol)
        · exact Or.inl (unitsLeft_chars _ a hlu p hp c hcp)
    · rcases List.mem_cons.mp hcr with rfl | hcr2
      · exact Or.inr (Or.inr rfl)
      rcases List.mem_cons.mp hcr2 with rfl | hcr3
      · exact Or.inr (Or.inr rfl)
      by_cases hre : r.isEmpty = true
      · rw [List.isEmpty_iff.mp hre] at hcr3; simp at hcr3
      · rw [if_neg hre] at hru
        rw [← joinChar_splitChar (Char.ofNat 58) r] at hcr3
        rcases mem_joinChar _ _ _ hcr3 with hcol | ⟨p, hp, hcp⟩
        · exact Or.inr (Or.inr hcol)
        · rcases unitsOf_chars _ b hru p hp c hcp with hx | hdot
          · exact Or.inl hx
          · exact Or.inr (Or.inl hdot)

/-- Every character of a syntactically valid address is a hex digit, a dot or
a colon; in particular no comma and no whitespace. -/
theorem valid_ip_chars (s : List Char) (h : is_valid_ip s = true) :
    ∀ c ∈ s, chHex c = true ∨ c = Char.ofNat 46 ∨ c = Char.ofNat 58 := by
  intro c hc
  rcases Bool.or_eq_true _ _ ▸ h with h4 | h6
  · rcases valid_ipv4_chars s h4 c hc with hd | hdot
    · exact Or.inl (by simp [chHex, hd])
    · exact Or.inr (Or.inl hdot)
  · exact valid_ipv6_chars s h6 c hc

theorem valid_ip_ne_nil (s : List Char) (h : is_valid_ip s = true) : s ≠ [] := by
  intro hnil
  subst hnil
  exact absurd h (by decide)

theorem valid_char_not_comma (c : Char)
    (h : chHex c = true ∨ c = Char.ofNat 46 ∨ c = Char.ofNat 58) :
    c ≠ Char.ofNat 44 := by
  intro hc
  subst hc
  rcases h with hx | hd | hcol
  · exact absurd hx (by decide)
  · exact absurd hd (by decide)
  · exact absurd hcol (by decide)

theorem valid_char_not_cr (c : Char)
    (h : chHex c = true ∨ c = Char.ofNat 46 ∨ c = Char.ofNat 58) :
    c ≠ Char.ofNat 13 := by
  intro hc
  subst hc
  rcases h with hx | hd | hcol
  · exact absurd hx (by decide)
  · exact absurd hd (by decide)
  · exact absurd hcol (by decide)

theorem valid_char_not_space (c : Char)
    (h : chHex c = true ∨ c = Char.ofNat 46 ∨ c = Char.ofNat 58) :
    isPySpace c = false := by
  rcases h with hx | hd | hcol
  · simp only [chHex, chDigit, Bool.or_eq_true, Bool.and_eq_true, decide_eq_true_eq] at hx
    simp only [isPySpace, Bool.or_eq_false_iff, beq_eq_false_iff_ne, ne_eq]
    omega
  · subst hd; decide
  · subst hcol; decide

/-! ## The IPv4 extraction regex of `IPgetter.fetch`

The pattern
`(25[0-5]|2[0-4][0-9]|[01]?[0-9][0-9]?)\.(...)\.(...)\.(...)`
has no Kleene star, so it is embedded as a finite regular expression with
character classes, sequencing, alternation and option.  `matchCont` decides
whether some decomposition matches (continuation style, which captures the
backtracking of the `re` engine); `matchE` returns the remainder of the
preferred match in Python priority order (leftmost alternative first,
greedy `?`); `reSearch` embeds `re.search` + `m.group(0)`: the match found
at the leftmost possible start position. -/

inductive RE where
  | cls (f : Char → Bool)
  | seq (a b : RE)
  | alt (a b : RE)
  | opt (a : RE)

/-- Does `re` match some prefix of `s` whose remainder satisfies `k`? -/
def matchCont : RE → List Char → (List Char → Bool) → Bool
  | .cls _, [], _ => false
  | .cls f, c :: rest, k => f c && k rest
  | .seq a b, s, k => matchCont a s (fun r => matchCont b r k)
  | .alt a b, s, k => matchCont a s k || matchCont b s k
  | .opt a, s, k => matchCont a s k || k s

/-- The language of a regular expression. -/
def Lang : RE → List Char → Prop
  | .cls f, s => ∃ c, s = [c] ∧ f c = true
  | .seq a b, s => ∃ u v, s = u ++ v ∧ Lang a u ∧ Lang b v
  | .alt a b, s => Lang a s ∨ Lang b s
  | .opt a, s => s = [] ∨ Lang a s

theorem matchCont_iff (re : RE) : ∀ (s : List Char) (k : List Char → Bool),
    matchCont re s k = true ↔ ∃ p r, s = p ++ r ∧ Lang re p ∧ k r = true := by
  induction re with
  | cls f =>
    intro s k
    cases s with
    | nil =>
      simp only [matchCont, Lang]
      constructor
      · intro h; exact absurd h (by simp)
      · rintro ⟨p, r, heq, ⟨c, rfl, _⟩, _⟩
        simp at heq
    | cons c t =>
      simp only [matchCont, Lang, Bool.and_eq_true]
      constructor
      · rintro ⟨hf, hk⟩
        exact ⟨[c], t, rfl, ⟨c, rfl, hf⟩, hk⟩
      · rintro ⟨p, r, heq, ⟨d, rfl, hf⟩, hk⟩
        rw [List.singleton_append] at heq
        obtain ⟨rfl, rfl⟩ := List.cons.injEq _ _ _ _ ▸ heq
        exact ⟨hf, hk⟩
  | seq a b iha ihb =>
    intro s k
    show matchCont a s (fun r => matchCont b r k) = true ↔ _
    rw [iha]
    constructor
    · rintro ⟨p1, r1, rfl, h1, hm⟩
      replace hm : matchCont b r1 k = true := hm
      rw [ihb] at hm
      obtain ⟨p2, r2, rfl, h2, hk⟩ := hm
      exact ⟨p1 ++ p2, r2, by rw [List.append_assoc], ⟨p1, p2, rfl, h1, h2⟩, hk⟩
    · rintro ⟨p, r, rfl, ⟨p1, p2, rfl, h1, h2⟩, hk⟩
      refine ⟨p1, p2 ++ r, by rw [List.append_assoc], h1, ?_⟩
      show matchCont b (p2 ++ r) k = true
      rw [ihb]
      exact ⟨p2, r, rfl, h2, hk⟩
  | alt a b iha ihb =>
    intro s k
    show (matchCont a s k || matchCont b s k) = true ↔ _
    rw [Bool.or_eq_true, iha, ihb]
    constructor
    · rintro (⟨p, r, rfl, h1, hk⟩ | ⟨p, r, rfl, h1, hk⟩)
      · exact ⟨p, r, rfl, Or.inl h1, hk⟩
      · exact ⟨p, r, rfl, Or.inr h1, hk⟩
    · rintro ⟨p, r, rfl, h1 | h1, hk⟩
      · exact Or.inl ⟨p, r, rfl, h1, hk⟩
      · exact Or.inr ⟨p, r, rfl, h1, hk⟩
  | opt a iha =>
    intro s k
    show (matchCont a s k || k s) = true ↔ _
    rw [Bool.or_eq_true, iha]
    constructor
    · rintro (⟨p, r, rfl, h1, hk⟩ | hk)
      · exact ⟨p, r, rfl, Or.inr h1, hk⟩
      · exact ⟨[], s, rfl, Or.inl rfl, hk⟩
    · rintro ⟨p, r, heq, rfl | h1, hk⟩
      · rw [List.nil_append] at heq; subst heq; exact Or.inr hk
      · subst heq; exact Or.inl ⟨p, r, rfl, h1, hk⟩

/-- Anchored match of the whole string. -/
def fullMatch (re : RE) (s : List Char) : Bool :=
  matchCont re s (fun r => r.isEmpty)

theorem fullMatch_iff_lang (re : RE) (s : List Char) :
    fullMatch re s = true ↔ Lang re s := by
  unfold fullMatch
  rw [matchCont_iff]
  constructor
  · rintro ⟨p, r, rfl, h1, hk⟩
    rw [List.isEmpty_iff.mp hk, List.append_nil]
    exact h1
  · intro h
    exact ⟨s, [], (List.append_nil s).symm, h, rfl⟩

/-- Preferred-match semantics: returns the remainder left by the match the
Python engine picks (first alternative wins, `?` is greedy). -/
def matchE : RE → List Char → (List Char → Option (List Char)) → Option (List Char)
  | .cls _, [], _ => none
  | .cls f, c :: rest, k => if f c then k rest else none
  | .seq a b, s, k => matchE a s (fun r => matchE b r k)
  | .alt a b, s, k =>
    match matchE a s k with
    | some o => some o
    | none => matchE b s k
  | .opt a, s, k =>
    match matchE a s k with
    | some o => some o
    | none => k s

theorem matchE_sound (re : RE) : ∀ (s : List Char) (k : List Char → Option (List Char))
    (out : List Char), matchE re s k = some out →
    ∃ p r, s = p ++ r ∧ Lang re p ∧ k r = some out := by
  induction re with
  | cls f =>
    intro s k out h
    cases s with
    | nil => simp [matchE] at h
    | cons c t =>
      simp only [matchE] at h
      by_cases hf : f c = true
      · rw [if_pos hf] at h
        exact ⟨[c], t, rfl, ⟨c, rfl, hf⟩, h⟩
      · rw [if_neg hf] at h; simp at h
  | seq a b iha ihb =>
    intro s k out h
    have h2 : matchE a s (fun r => matchE b r k) = some out := h
    obtain ⟨p1, r1, rfl, h1, hm⟩ := iha s _ out h2
    replace hm : matchE b r1 k = some out := hm
    obtain ⟨p2, r2, rfl, h3, hk⟩ := ihb r1 k out hm
    exact ⟨p1 ++ p2, r2, by rw [List.append_assoc], ⟨p1, p2, rfl, h1, h3⟩, hk⟩
  | alt a b iha ihb =>
    intro s k out h
    have h2 : (match matchE a s k with
      | some o => some o
      | none => matchE b s k) = some out := h
    cases ha : matchE a s k with
    | some o =>
      rw [ha] at h2
      have hoo : o = out := by simpa using h2
      obtain ⟨p, r, rfl, h1, hk⟩ := iha s k o ha
      exact ⟨p, r, rfl, Or.inl h1, hoo ▸ hk⟩
    | none =>
      rw [ha] at h2
      obtain ⟨p, r, rfl, h1, hk⟩ := ihb s k out h2
      exact ⟨p, r, rfl, Or.inr h1, hk⟩
  | opt a iha =>
    intro s k out h
    have h2 : (match matchE a s k with
      | some o => some o
      | none => k s) = some out := h
    cases ha : matchE a s k with
    | some o =>
      rw [ha] at h2
      have hoo : o = out := by simpa using h2
      obtain ⟨p, r, rfl, h1, hk⟩ := iha s k o ha
      exact ⟨p, r, rfl, Or.inr h1, hoo ▸ hk⟩
    | none =>
      rw [ha] at h2
      exact ⟨[], s, rfl, Or.inl rfl, h2⟩

/-- `re.search(pattern, s)` followed by `m.group(0)`: scan start positions
left to right, return the preferred match at the first position that has one. -/
def reSearch (re : RE) : List Char → Option (List Char)
  | [] =>
    match matchE re [] some with
    | some _ => some []
    | none => none
  | c :: t =>
    match matchE re (c :: t) some with
    | some rem => some ((c :: t).take ((c :: t).length - rem.length))
    | none => reSearch re t

theorem reSearch_lang (re : RE) : ∀ (s m : List Char),
    reSearch re s = some m → Lang re m := by
  intro s
  induction s with
  | nil =>
    intro m h
    simp only [reSearch] at h
    cases he : matchE re [] some with
    | none => rw [he] at h; simp at h
    | some o =>
      rw [he] at h
      obtain rfl : m = [] := by
        simpa using h.symm
      obtain ⟨p, r, hpr, h1, hk⟩ := matchE_sound re [] some o he
      obtain ⟨rfl, _⟩ := List.append_eq_nil.mp hpr.symm
      exact h1
  | cons c t ih =>
    intro m h
    simp only [reSearch] at h
    cases he : matchE re (c :: t) some with
    | none =>
      rw [he] at h
      exact ih m h
    | some rem =>
      rw [he] at h
      obtain ⟨p, r, hpr, h1, hk⟩ := matchE_sound re (c :: t) some rem he
      have hrr : r = rem := by simpa using hk
      subst hrr
      have hm : m = (c :: t).take ((c :: t).length - r.length) := by
        simpa using h.symm
      have hlen : (c :: t).length - r.length = p.length := by
        rw [hpr, List.length_append]
        omega
      rw [hlen, hpr, List.take_left] at hm
      rw [hm]
      exact h1

/-- A match produced by `reSearch` full-matches the pattern. -/
theorem reSearch_fullMatch (re : RE) (s m : List Char)
    (h : reSearch re s = some m) : fullMatch re m = true :=
  (fullMatch_iff_lang re m).mpr (reSearch_lang re s m h)

/-- Character equals codepoint `n` (a literal character in the pattern). -/
def chIs (n : Nat) (c : Char) : Bool := c.toNat == n

/-- Character class given by a codepoint interval, e.g. `[0-5]`. -/
def chRange (lo hi : Nat) (c : Char) : Bool :=
  decide (lo ≤ c.toNat) && decide (c.toNat ≤ hi)

/-- Alternative `25[0-5]` of the octet group. -/
def octA : RE := .seq (.cls (chIs 50)) (.seq (.cls (chIs 53)) (.cls (chRange 48 53)))

/-- Alternative `2[0-4][0-9]` of the octet group. -/
def octB : RE := .seq (.cls (chIs 50)) (.seq (.cls (chRange 48 52)) (.cls chDigit))

/-- Alternative `[01]?[0-9][0-9]?` of the octet group. -/
def octC : RE := .seq (.opt (.cls (chRange 48 49))) (.seq (.cls chDigit) (.opt (.cls chDigit)))

/-- The octet group `(25[0-5]|2[0-4][0-9]|[01]?[0-9][0-9]?)`. -/
def octetRE : RE := .alt octA (.alt octB octC)

/-- The literal `\.` between octet groups. -/
def dotRE : RE := .cls (chIs 46)

/-- The full extraction pattern used in `IPgetter.fetch`. -/
def ipv4RE : RE :=
  .seq octetRE (.seq dotRE (.seq octetRE (.seq dotRE (.seq octetRE (.seq dotRE octetRE)))))

/-- Spec-side description of one component, following the words of the spec:
a dotted-quad component written with one to three decimal digits whose value
is at most 255. -/
def specOctet (p : List Char) : Bool :=
  !p.isEmpty && decide (p.length ≤ 3) && p.all chDigit && decide (decValue p ≤ 255)

/-- Spec-side description of a valid dotted-quad string: four components
separated by dots, octets at most 255 per component. -/
def dottedQuadSpec (s : List Char) : Bool :=
  let parts := splitChar (Char.ofNat 46) s
  parts.length == 4 && parts.all specOctet

theorem decValue_one (a : Char) : decValue [a] = digitVal a := by
  simp [decValue]

theorem decValue_two (a b : Char) : decValue [a, b] = 10 * digitVal a + digitVal b := by
  simp [decValue]; ring

theorem decValue_three (a b c : Char) :
    decValue [a, b, c] = 100 * digitVal a + 10 * digitVal b + digitVal c := by
  simp [decValue]; ring

theorem specOctet_one (a : Char) : specOctet [a] = true ↔ chDigit a = true := by
  simp [specOctet, chDigit, decValue_one, digitVal]
  omega

theorem specOctet_two (a b : Char) :
    specOctet [a, b] = true ↔ chDigit a = true ∧ chDigit b = true := by
  simp [specOctet, chDigit, decValue_two, digitVal]
  omega

theorem specOctet_three (a b c : Char) :
    specOctet [a, b, c] = true ↔
      chDigit a = true ∧ chDigit b = true ∧ chDigit c = true ∧
      100 * digitVal a + 10 * digitVal b + digitVal c ≤ 255 := by
  simp [specOctet, chDigit, decValue_three, digitVal]
  omega

theorem specOctet_big (a b c d : Char) (rest : List Char) :
    specOctet (a :: b :: c :: d :: rest) = false := by
  simp only [specOctet, List.length_cons]
  have : ¬ (rest.length + 1 + 1 + 1 + 1 ≤ 3) := by omega
  simp [this]

/-- Shape of `Lang` for a sequence of three character classes. -/
theorem lang_seq3_cls (f g h : Char → Bool) (p : List Char) :
    Lang (.seq (.cls f) (.seq (.cls g) (.cls h))) p ↔
      ∃ a b c, p = [a, b, c] ∧ f a = true ∧ g b = true ∧ h c = true := by
  constructor
  · rintro ⟨u, v, rfl, ⟨a, rfl, hf⟩, u2, v2, rfl, ⟨b, rfl, hg⟩, ⟨c, rfl, hh⟩⟩
    exact ⟨a, b, c, rfl, hf, hg, hh⟩
  · rintro ⟨a, b, c, rfl, hf, hg, hh⟩
    exact ⟨[a], [b, c], rfl, ⟨a, rfl, hf⟩, [b], [c], rfl, ⟨b, rfl, hg⟩, ⟨c, rfl, hh⟩⟩

/-- Shape of `Lang` for `f? g h?`. -/
theorem lang_opt_shape (f g h : Char → Bool) (p : List Char) :
    Lang (.seq (.opt (.cls f)) (.seq (.cls g) (.opt (.cls h)))) p ↔
      ((∃ a, p = [a] ∧ g a = true) ∨
       (∃ a b, p = [a, b] ∧ ((g a = true ∧ h b = true) ∨ (f a = true ∧ g b = true))) ∨
       (∃ a b c, p = [a, b, c] ∧ f a = true ∧ g b = true ∧ h c = true)) := by
  constructor
  · rintro ⟨u, v, rfl, hopt, u2, v2, rfl, ⟨b, rfl, hg⟩, hopt2⟩
    rcases hopt with rfl | ⟨a, rfl, hf⟩
    · rcases hopt2 with rfl | ⟨c, rfl, hh⟩
      · exact Or.inl ⟨b, rfl, hg⟩
      · exact Or.inr (Or.inl ⟨b, c, rfl, Or.inl ⟨hg, hh⟩⟩)
    · rcases hopt2 with rfl | ⟨c, rfl, hh⟩
      · exact Or.inr (Or.inl ⟨a, b, rfl, Or.inr ⟨hf, hg⟩⟩)
      · exact Or.inr (Or.inr ⟨a, b, c, rfl, hf, hg, hh⟩)
  · rintro (⟨a, rfl, hg⟩ | ⟨a, b, rfl, ⟨hg, hh⟩ | ⟨hf, hg⟩⟩ | ⟨a, b, c, rfl, hf, hg, hh⟩)
    · exact ⟨[], [a], rfl, Or.inl rfl, [a], [], rfl, ⟨a, rfl, hg⟩, Or.inl rfl⟩
    · exact ⟨[], [a, b], rfl, Or.inl rfl, [a], [b], rfl, ⟨a, rfl, hg⟩, Or.inr ⟨b, rfl, hh⟩⟩
    · exact ⟨[a], [b], rfl, Or.inr ⟨a, rfl, hf⟩, [b], [], rfl, ⟨b, rfl, hg⟩, Or.inl rfl⟩
    · exact ⟨[a], [b, c], rfl, Or.inr ⟨a, rfl, hf⟩, [b], [c], rfl, ⟨b, rfl, hg⟩,
        Or.inr ⟨c, rfl, hh⟩⟩

/-- The language of one octet group is exactly the spec-side octet set. -/
theorem lang_octet_iff (p : List Char) : Lang octetRE p ↔ specOctet p = true := by
  have hA := lang_seq3_cls (chIs 50) (chIs 53) (chRange 48 53) p
  have hB := lang_seq3_cls (chIs 50) (chRange 48 52) chDigit p
  have hC := lang_opt_shape (chRange 48 49) chDigit chDigit p
  constructor
  · intro h
    have h2 : Lang octA p ∨ Lang octB p ∨ Lang octC p := h
    rcases h2 with h3 | h3 | h3
    · obtain ⟨a, b, c, rfl, hf, hg, hh⟩ := hA.mp h3
      simp only [chIs, beq_iff_eq, chRange, Bool.and_eq_true, decide_eq_true_eq] at hf hg hh
      rw [specOctet_three]
      simp only [chDigit, digitVal, Bool.and_eq_true, decide_eq_true_eq]
      omega
    · obtain ⟨a, b, c, rfl, hf, hg, hh⟩ := hB.mp h3
      simp only [chIs, beq_iff_eq, chRange, chDigit, Bool.and_eq_true,
        decide_eq_true_eq] at hf hg hh
      rw [specOctet_three]
      simp only [chDigit, digitVal, Bool.and_eq_true, decide_eq_true_eq]
      omega
    · rcases hC.mp h3 with ⟨a, rfl, hg⟩ | ⟨a, b, rfl, hab⟩ | ⟨a, b, c, rfl, hf, hg, hh⟩
      · exact (specOctet_one a).mpr hg
      · rcases hab with ⟨hg, hh⟩ | ⟨hf, hg⟩
        · exact (specOctet_two a b).mpr ⟨hg, hh⟩
        · refine (specOctet_two a b).mpr ⟨?_, hg⟩
          simp only [chRange, Bool.and_eq_true, decide_eq_true_eq] at hf
          simp only [chDigit, Bool.and_eq_true, decide_eq_true_eq]
          omega
      · rw [specOctet_three]
        simp only [chRange, chDigit, digitVal, Bool.and_eq_true, decide_eq_true_eq] at hf hg hh ⊢
        omega
  · intro h
    show Lang octA p ∨ Lang octB p ∨ Lang octC p
    match p with
    | [] => exact absurd h (by decide)
    | [a] =>
      exact Or.inr (Or.inr (hC.mpr (Or.inl ⟨a, rfl, (specOctet_one a).mp h⟩)))
    | [a, b] =>
      obtain ⟨ha, hb⟩ := (specOctet_two a b).mp h
      exact Or.inr (Or.inr (hC.mpr (Or.inr (Or.inl ⟨a, b, rfl, Or.inl ⟨ha, hb⟩⟩))))
    | [a, b, c] =>
      obtain ⟨ha, hb, hc, hv⟩ := (specOctet_three a b c).mp h
      simp only [chDigit, digitVal, Bool.and_eq_true, decide_eq_true_eq] at ha hb hc hv
      by_cases h0 : a.toNat ≤ 49
      · refine Or.inr (Or.inr (hC.mpr (Or.inr (Or.inr ⟨a, b, c, rfl, ?_, ?_, ?_⟩))))
        · simp only [chRange, Bool.and_eq_true, decide_eq_true_eq]; omega
        · simp only [chDigit, Bool.and_eq_true, decide_eq_true_eq]; omega
        · simp only [chDigit, Bool.and_eq_true, decide_eq_true_eq]; omega
      · have ha2 : a.toNat = 50 := by omega
        by_cases h1 : b.toNat ≤ 52
        · refine Or.inr (Or.inl (hB.mpr ⟨a, b, c, rfl, ?_, ?_, ?_⟩))
          · simp only [chIs, beq_iff_eq]; omega
          · simp only [chRange, Bool.and_eq_true, decide_eq_true_eq]; omega
          · simp only [chDigit, Bool.and_eq_true, decide_eq_true_eq]; omega
        · refine Or.inl (hA.mpr ⟨a, b, c, rfl, ?_, ?_, ?_⟩)
          · simp only [chIs, beq_iff_eq]; omega
          · simp only [chIs, beq_iff_eq]; omega
          · simp only [chRange, Bool.and_eq_true, decide_eq_true_eq]; omega
    | a :: b :: c :: d :: rest =>
      rw [specOctet_big] at h
      exact absurd h (by simp)

theorem char_toNat_inj (c d : Char) (h : c.toNat = d.toNat) : c = d := by
  have h1 : Char.ofNat c.toNat = Char.ofNat d.toNat := by rw [h]
  rwa [Char.ofNat_toNat, Char.ofNat_toNat] at h1

theorem lang_octet_no_dot (o : List Char) (h : Lang octetRE o) : Char.ofNat 46 ∉ o := by
  intro hmem
  have hs := (lang_octet_iff o).mp h
  simp only [specOctet, Bool.and_eq_true, List.all_eq_true] at hs
  have := hs.1.2 _ hmem
  exact absurd this (by decide)

/-- Anchored matches of the full pattern are exactly dot-joined quadruples of
octet-group words. -/
theorem lang_ipv4_iff (s : List Char) :
    Lang ipv4RE s ↔ ∃ o1 o2 o3 o4,
      s = o1 ++ Char.ofNat 46 :: (o2 ++ Char.ofNat 46 :: (o3 ++ Char.ofNat 46 :: o4)) ∧
      Lang octetRE o1 ∧ Lang octetRE o2 ∧ Lang octetRE o3 ∧ Lang octetRE o4 := by
  constructor
  · rintro ⟨o1, v1, rfl, h1, u2, v2, rfl, ⟨d1, rfl, hd1⟩, o2, v3, rfl, h2,
      u4, v4, rfl, ⟨d2, rfl, hd2⟩, o3, v5, rfl, h3, u6, o4, rfl, ⟨d3, rfl, hd3⟩, h4⟩
    simp only [chIs, beq_iff_eq] at hd1 hd2 hd3
    have e1 : d1 = Char.ofNat 46 := char_toNat_inj _ _ (by rw [hd1]; decide)
    have e2 : d2 = Char.ofNat 46 := char_toNat_inj _ _ (by rw [hd2]; decide)
    have e3 : d3 = Char.ofNat 46 := char_toNat_inj _ _ (by rw [hd3]; decide)
    subst e1; subst e2; subst e3
    exact ⟨o1, o2, o3, o4, by simp, h1, h2, h3, h4⟩
  · rintro ⟨o1, o2, o3, o4, rfl, h1, h2, h3, h4⟩
    refine ⟨o1, _, rfl, h1, [Char.ofNat 46], _, rfl, ⟨Char.ofNat 46, rfl, by decide⟩,
      o2, _, rfl, h2, [Char.ofNat 46], _, rfl, ⟨Char.ofNat 46, rfl, by decide⟩,
      o3, _, rfl, h3, [Char.ofNat 46], o4, rfl, ⟨Char.ofNat 46, rfl, by decide⟩, h4⟩

/-- The extraction regex anchors to exactly the spec-side dotted quads. -/
theorem fullMatch_ipv4_iff_spec (s : List Char) :
    fullMatch ipv4RE s = true ↔ dottedQuadSpec s = true := by
  rw [fullMatch_iff_lang, lang_ipv4_iff]
  constructor
  · rintro ⟨o1, o2, o3, o4, rfl, h1, h2, h3, h4⟩
    have n1 := lang_octet_no_dot o1 h1
    have n2 := lang_octet_no_dot o2 h2
    have n3 := lang_octet_no_dot o3 h3
    have n4 := lang_octet_no_dot o4 h4
    unfold dottedQuadSpec
    rw [splitChar_append_sep _ _ _ n1, splitChar_append_sep _ _ _ n2,
      splitChar_append_sep _ _ _ n3, splitChar_not_mem _ _ n4]
    simp only [List.length_cons, List.length_singleton, List.all_cons, List.all_nil,
      Bool.and_eq_true, beq_iff_eq]
    refine ⟨rfl, ?_⟩
    exact ⟨(lang_octet_iff o1).mp h1, (lang_octet_iff o2).mp h2,
      (lang_octet_iff o3).mp h3, (lang_octet_iff o4).mp h4, trivial⟩
  · intro h
    unfold dottedQuadSpec at h
    simp only [Bool.and_eq_true, beq_iff_eq, List.all_eq_true] at h
    obtain ⟨hlen, hall⟩ := h
    have hjoin := joinChar_splitChar (Char.ofNat 46) s
    match hps : splitChar (Char.ofNat 46) s with
    | [o1, o2, o3, o4] =>
      rw [hps] at hjoin hall
      refine ⟨o1, o2, o3, o4, ?_, ?_, ?_, ?_, ?_⟩
      · rw [← hjoin]; rfl
      · exact (lang_octet_iff o1).mpr (hall o1 (by simp))
      · exact (lang_octet_iff o2).mpr (hall o2 (by simp))
      · exact (lang_octet_iff o3).mpr (hall o3 (by simp))
      · exact (lang_octet_iff o4).mpr (hall o4 (by simp))
    | [] => rw [hps] at hlen; simp at hlen
    | [_] => rw [hps] at hlen; simp at hlen
    | [_, _] => rw [hps] at hlen; simp at hlen
    | [_, _, _] => rw [hps] at hlen; simp at hlen
    | _ :: _ :: _ :: _ :: _ :: _ => rw [hps] at hlen; simp at hlen

/-- Every character of a string accepted by the extraction pattern is a digit
or a dot. -/
theorem fullMatch_ipv4_chars (s : List Char) (h : fullMatch ipv4RE s = true) :
    ∀ c ∈ s, chDigit c = true ∨ c = Char.ofNat 46 := by
  intro c hc
  have h2 := (fullMatch_ipv4_iff_spec s).mp h
  simp only [dottedQuadSpec, Bool.and_eq_true, List.all_eq_true] at h2
  rw [← joinChar_splitChar (Char.ofNat 46) s] at hc
  rcases mem_joinChar _ _ _ hc with hdot | ⟨p, hp, hcp⟩
  · exact Or.inr hdot
  · have hso := h2.2 p hp
    simp only [specOctet, Bool.and_eq_true, List.all_eq_true] at hso
    exact Or.inl (hso.1.2 c hcp)

/-! ## State store (ipwatch.py `getoldip` / `updateoldip`)

The state file is modelled by its content: `none` when the file is absent.
Codepoints: 39 apostrophe, 44 comma, 46 dot, 58 colon. -/

structure IpRec where
  ip : Option (List Char)
  server : Option (List Char)
deriving DecidableEq

def squote : Char := Char.ofNat 39

/-- The `"Mangled File"` sentinel of `getoldip`. -/
def mangledFileMsg : List Char := "Mangled File".data

/-- The `"malformed ('%s')"` sentinel of `getoldip`. -/
def malformedWrap (s : List Char) : List Char :=
  "malformed (".data ++ squote :: (s ++ squote :: ")".data)

/-- The `"File '%s' not found"` sentinel of `getoldip`. -/
def fileNotFoundMsg (filepath : List Char) : List Char :=
  "File ".data ++ squote :: (filepath ++ squote :: " not found".data)

/-- ipwatch.py `getoldip`: read the file in text mode (universal newlines),
strip, split on commas; first field is the IP, the remaining fields rejoined
with commas are the server; a non-valid IP field is replaced by the
`malformed` sentinel, an absent file by the `not found` sentinel.
`fileContent` is the on-disk content. -/
def getoldip (fileContent : Option (List Char)) (filepath : List Char) : IpRec :=
  match fileContent with
  | some content =>
    let fc := splitChar (Char.ofNat 44) (pyStrip (pyUnivNewlines content))
    if fc.length == 0 then { ip := some mangledFileMsg, server := none }
    else
      let ip0 := fc.headD []
      let srv := if fc.length > 1 then some (joinChar (Char.ofNat 44) fc.tail) else none
      if is_valid_ip ip0 then { ip := some ip0, server := srv }
      else { ip := some (malformedWrap ip0), server := srv }
  | none => { ip := some (fileNotFoundMsg filepath), server := none }

/-- ipwatch.py `updateoldip`: the file content written,
`','.join([newip["ip"], newip["server"]])`. -/
def updateoldip (ip server : List Char) : List Char :=
  ip ++ Char.ofNat 44 :: server

/-! ## Resolution loop

`IPgetter.get_externalip_and_source` (ipgetter.py): up to 7 fetches against
randomly chosen servers, stopping at the first non-empty result;
`getipAndSource` (ipwatch.py): up to `try_count` such rounds, stopping at the
first syntactically valid, non-blacklisted result.

The network and the random generator are modelled as oracles: `fetchRes k` is
the string returned by the `k`-th call of `IPgetter.fetch` overall, and
`pick k` chooses the server index for that call (`random.choice` taken modulo
the pool size).  The server pool is assumed stable across rounds (each round
re-reads the same catalog cache). -/

/-- The server `random.choice` yields for fetch call `k`. -/
def srvAt (servers : List (List Char)) (pick : Nat → Nat) (k : Nat) : List Char :=
  servers.getD (pick k % servers.length) []

/-- The `myip` dict as it stands right after fetch call `k`. -/
def attemptRecAt (servers : List (List Char)) (pick : Nat → Nat)
    (fetchRes : Nat → List Char) (k : Nat) : IpRec :=
  { ip := some (fetchRes k), server := some (srvAt servers pick k) }

/-- The `for i in range(7)` loop of `get_externalip_and_source`; `.error`
models an uncaught Python exception (`random.choice` on an empty pool raises
`IndexError`).  Returns the record together with the fetch-call counter. -/
def fetchLoopAux (servers : List (List Char)) (pick : Nat → Nat)
    (fetchRes : Nat → List Char) :
    Nat → Nat → IpRec → Except String (IpRec × Nat)
  | 0, calls, last => .ok (last, calls)
  | fuel + 1, calls, _ =>
    if servers.isEmpty then .error "IndexError"
    else
      if (fetchRes calls).isEmpty then
        fetchLoopAux servers pick fetchRes fuel (calls + 1)
          (attemptRecAt servers pick fetchRes calls)
      else .ok (attemptRecAt servers pick fetchRes calls, calls + 1)

/-- ipgetter.py `myipAndSource` = `IPgetter().get_externalip_and_source()`. -/
def myipAndSource (servers : List (List Char)) (pick : Nat → Nat)
    (fetchRes : Nat → List Char) (calls : Nat) : Except String (IpRec × Nat) :=
  fetchLoopAux servers pick fetchRes 7 calls { ip := none, server := none }

/-- The acceptance test of one round of `getipAndSource`:
`is_valid_ip(theIP["ip"])` and not blacklisted (an `ip` of `None` would raise
`TypeError` inside `inet_pton`). -/
def acceptRec (blacklist : List (List Char)) (r : IpRec) : Except String Bool :=
  match r.ip with
  | none => .error "TypeError"
  | some s => .ok (is_valid_ip s && !(blacklist.contains s))

/-- The `for counter in range(try_count)` loop of `getipAndSource`; with
`try_count = 0` the final `return theIP` raises `NameError`. -/
def getipAndSourceAux (servers : List (List Char)) (pick : Nat → Nat)
    (fetchRes : Nat → List Char) (blacklist : List (List Char)) :
    Nat → Nat → Option IpRec → Except String (IpRec × Nat)
  | 0, calls, last =>
    match last with
    | some r => .ok (r, calls)
    | none => .error "NameError"
  | fuel + 1, calls, _ =>
    match myipAndSource servers pick fetchRes calls with
    | .error e => .error e
    | .ok (r, calls2) =>
      match acceptRec blacklist r with
      | .error e => .error e
      | .ok true => .ok (r, calls2)
      | .ok false => getipAndSourceAux servers pick fetchRes blacklist fuel calls2 (some r)

/-- ipwatch.py `getipAndSource`. -/
def getipAndSource (try_count : Nat) (blacklist : List (List Char))
    (servers : List (List Char)) (pick : Nat → Nat) (fetchRes : Nat → List Char) :
    Except String (IpRec × Nat) :=
  getipAndSourceAux servers pick fetchRes blacklist try_count 0 none

/-- The result of round `k` (0-based) of the outer loop, starting from fetch
counter `calls`. -/
def nthAttempt (servers : List (List Char)) (pick : Nat → Nat)
    (fetchRes : Nat → List Char) : Nat → Nat → Except String (IpRec × Nat)
  | calls, 0 => myipAndSource servers pick fetchRes calls
  | calls, k + 1 =>
    match myipAndSource servers pick fetchRes calls with
    | .ok (_, calls2) => nthAttempt servers pick fetchRes calls2 k
    | .error e => .error e

/-- Whether round `k` produces a valid, non-blacklisted record. -/
def acceptedAtB (blacklist servers : List (List Char)) (pick : Nat → Nat)
    (fetchRes : Nat → List Char) (calls k : Nat) : Bool :=
  match nthAttempt servers pick fetchRes calls k with
  | .ok (r, _) =>
    match acceptRec blacklist r with
    | .ok b => b
    | .error _ => false
  | .error _ => false

theorem fetchLoopAux_step (servers : List (List Char)) (pick : Nat → Nat)
    (fetchRes : Nat → List Char) (fuel calls : Nat) (last : IpRec)
    (hne : servers.isEmpty = false) :
    fetchLoopAux servers pick fetchRes (fuel + 1) calls last =
      if (fetchRes calls).isEmpty then
        fetchLoopAux servers pick fetchRes fuel (calls + 1)
          (attemptRecAt servers pick fetchRes calls)
      else .ok (attemptRecAt servers pick fetchRes calls, calls + 1) := by
  rw [fetchLoopAux, hne]
  simp only [Bool.false_eq_true, if_false]

theorem getipAux_step (servers : List (List Char)) (pick : Nat → Nat)
    (fetchRes : Nat → List Char) (blacklist : List (List Char))
    (fuel calls : Nat) (last : Option IpRec) :
    getipAndSourceAux servers pick fetchRes blacklist (fuel + 1) calls last =
      match myipAndSource servers pick fetchRes calls with
      | .error e => .error e
      | .ok (r, calls2) =>
        match acceptRec blacklist r with
        | .error e => .error e
        | .ok true => .ok (r, calls2)
        | .ok false =>
          getipAndSourceAux servers pick fetchRes blacklist fuel calls2 (some r) := by
  rw [getipAndSourceAux]

theorem fetchLoopAux_spec (servers : List (List Char)) (pick : Nat → Nat)
    (fetchRes : Nat → List Char) (hs : servers ≠ []) :
    ∀ fuel calls last, 1 ≤ fuel →
    ∃ cf, fetchLoopAux servers pick fetchRes fuel calls last =
        .ok (attemptRecAt servers pick fetchRes (cf - 1), cf) ∧
      calls + 1 ≤ cf ∧ cf ≤ calls + fuel := by
  intro fuel
  induction fuel with
  | zero => intro calls last h; omega
  | succ n ih =>
    intro calls last _
    have hne : servers.isEmpty = false := by
      cases servers with
      | nil => exact absurd rfl hs
      | cons a t => rfl
    cases n with
    | zero =>
      refine ⟨calls + 1, ?_, by omega, by omega⟩
      by_cases hip : (fetchRes calls).isEmpty = true
      · simp [fetchLoopAux, hne, hip]
      · simp [fetchLoopAux, hne, hip]
    | succ m =>
      by_cases hip : (fetchRes calls).isEmpty = true
      · obtain ⟨cf, heq, h1, h2⟩ :=
          ih (calls + 1) (attemptRecAt servers pick fetchRes calls) (by omega)
        refine ⟨cf, ?_, by omega, by omega⟩
        rw [fetchLoopAux_step servers pick fetchRes (m + 1) calls last hne, if_pos hip]
        exact heq
      · refine ⟨calls + 1, ?_, by omega, by omega⟩
        simp [fetchLoopAux, hne, hip]

theorem myipAndSource_spec (servers : List (List Char)) (pick : Nat → Nat)
    (fetchRes : Nat → List Char) (hs : servers ≠ []) (calls : Nat) :
    ∃ cf, myipAndSource servers pick fetchRes calls =
        .ok (attemptRecAt servers pick fetchRes (cf - 1), cf) ∧
      calls + 1 ≤ cf ∧ cf ≤ calls + 7 :=
  fetchLoopAux_spec servers pick fetchRes hs 7 calls _ (by omega)

theorem nthAttempt_spec (servers : List (List Char)) (pick : Nat → Nat)
    (fetchRes : Nat → List Char) (hs : servers ≠ []) :
    ∀ k calls, ∃ j cf, nthAttempt servers pick fetchRes calls k =
        .ok (attemptRecAt servers pick fetchRes j, cf) ∧
      calls ≤ j ∧ j < cf ∧ cf ≤ calls + 7 * (k + 1) := by
  intro k
  induction k with
  | zero =>
    intro calls
    obtain ⟨cf, heq, h1, h2⟩ := myipAndSource_spec servers pick fetchRes hs calls
    exact ⟨cf - 1, cf, by simpa [nthAttempt] using heq, by omega, by omega, by omega⟩
  | succ m ih =>
    intro calls
    obtain ⟨cf1, heq1, h1, h2⟩ := myipAndSource_spec servers pick fetchRes hs calls
    obtain ⟨j, cf, heq, h3, h4, h5⟩ := ih cf1
    refine ⟨j, cf, ?_, by omega, by omega, by omega⟩
    simp only [nthAttempt, heq1]
    exact heq

theorem getipAux_spec (blacklist servers : List (List Char)) (pick : Nat → Nat)
    (fetchRes : Nat → List Char) (hs : servers ≠ []) :
    ∀ fuel calls last, 1 ≤ fuel →
    ∃ k, k < fuel ∧
      getipAndSourceAux servers pick fetchRes blacklist fuel calls last =
        nthAttempt servers pick fetchRes calls k ∧
      (∀ j, j < k → acceptedAtB blacklist servers pick fetchRes calls j = false) ∧
      (acceptedAtB blacklist servers pick fetchRes calls k = true ∨ k = fuel - 1) := by
  intro fuel
  induction fuel with
  | zero => intro calls last h; omega
  | succ n ih =>
    intro calls last _
    obtain ⟨cf1, heq1, hc1, hc2⟩ := myipAndSource_spec servers pick fetchRes hs calls
    have hacc : acceptRec blacklist (attemptRecAt servers pick fetchRes (cf1 - 1)) =
        .ok (is_valid_ip (fetchRes (cf1 - 1)) &&
          !(blacklist.contains (fetchRes (cf1 - 1)))) := rfl
    have hacc0 : acceptedAtB blacklist servers pick fetchRes calls 0 =
        (is_valid_ip (fetchRes (cf1 - 1)) && !(blacklist.contains (fetchRes (cf1 - 1)))) := by
      simp only [acceptedAtB, nthAttempt, heq1, hacc]
    cases hbv : (is_valid_ip (fetchRes (cf1 - 1)) &&
        !(blacklist.contains (fetchRes (cf1 - 1)))) with
    | true =>
      refine ⟨0, by omega, ?_, by intro j hj; omega, Or.inl (by rw [hacc0, hbv])⟩
      simp only [getipAndSourceAux, heq1, hacc, hbv, nthAttempt]
    | false =>
      cases n with
      | zero =>
        refine ⟨0, by omega, ?_, by intro j hj; omega, Or.inr rfl⟩
        simp only [getipAndSourceAux, heq1, hacc, hbv, nthAttempt]
      | succ m =>
        obtain ⟨k, hk, heq, hprev, hlast⟩ :=
          ih cf1 (some (attemptRecAt servers pick fetchRes (cf1 - 1))) (by omega)
        have hshift : ∀ j, acceptedAtB blacklist servers pick fetchRes calls (j + 1) =
            acceptedAtB blacklist servers pick fetchRes cf1 j := by
          intro j
          simp only [acceptedAtB, nthAttempt, heq1]
        refine ⟨k + 1, by omega, ?_, ?_, ?_⟩
        · rw [getipAux_step servers pick fetchRes blacklist (m + 1) calls last, heq1]
          simp only [hacc, hbv]
          rw [heq]
          simp only [nthAttempt, heq1]
        · intro j hj
          cases j with
          | zero => rw [hacc0, hbv]
          | succ j2 =>
            rw [hshift j2]
            exact hprev j2 (by omega)
        · rcases hlast with hacck | hk2
          · exact Or.inl (by rw [hshift k]; exact hacck)
          · exact Or.inr (by omega)

/-- Top-level behaviour of the resolution loop: it runs some number `k + 1` of
rounds with `k < try_count`, every earlier round was unacceptable, and it
stops either because round `k` is acceptable or because the budget is
exhausted. -/
theorem getipAndSource_spec (try_count : Nat) (blacklist servers : List (List Char))
    (pick : Nat → Nat) (fetchRes : Nat → List Char)
    (hs : servers ≠ []) (ht : 1 ≤ try_count) :
    ∃ k, k < try_count ∧
      getipAndSource try_count blacklist servers pick fetchRes =
        nthAttempt servers pick fetchRes 0 k ∧
      (∀ j, j < k → acceptedAtB blacklist servers pick fetchRes 0 j = false) ∧
      (acceptedAtB blacklist servers pick fetchRes 0 k = true ∨ k = try_count - 1) :=
  getipAux_spec blacklist servers pick fetchRes hs try_count 0 none ht

/-! ## AddressFetcher (ipgetter.py `IPgetter.fetch`)

The network is abstracted by a `FetchEnv`: either `opener.open` raises
(timeout, connection failure, or the `HTTPError` urllib raises on an error
status), `url.read()` raises, decoding raises (the UTF-8 attempt falls back
to Latin-1, which cannot fail, but a failure there would land in the same
handler), or a decoded body is available.  `fetchBody` is the `try` block:
`.error` is a raised exception; `fetch` wraps it in the
`except Exception: return ''` handler and the `finally` clause closes the
response iff `url` was assigned, i.e. iff `open` succeeded. -/

inductive FetchEnv where
  | openFail
  | readFail
  | decodeFail
  | body (text : List Char)
deriving DecidableEq

structure FetchOut where
  ip : List Char
  connOpened : Bool
  connClosed : Bool
deriving DecidableEq

/-- The `try` block of `fetch`: open, read, decode, regex-search, `group(0)`
(raises `AttributeError` when the search returned `None`), and the final
`return myip if len(myip) > 0 else ''`. -/
def fetchBody (env : FetchEnv) : Except String (List Char) :=
  match env with
  | .openFail => .error "URLError"
  | .readFail => .error "ReadError"
  | .decodeFail => .error "UnicodeDecodeError"
  | .body text =>
    match reSearch ipv4RE text with
    | none => .error "AttributeError"
    | some m => .ok (if 0 < m.length then m else [])

/-- ipgetter.py `IPgetter.fetch` with its exception handler and `finally`. -/
def fetch (env : FetchEnv) : FetchOut :=
  let opened : Bool := match env with
    | .openFail => false
    | _ => true
  { ip := match fetchBody env with
      | .ok s => s
      | .error _ => []
  , connOpened := opened
  , connClosed := opened }

/-! ## ChangeDetector (ipwatch.py `doTheWork`)

The run is modelled by the state-file content before the run, the
configuration inputs, and the oracles of the resolution loop.  `notified`
holds the pair of records handed to `sendmail`, `saved` the content written
by `updateoldip` (`none` when `updateoldip` is not called). -/

structure WorkOut where
  changed : Bool
  notified : Option (IpRec × IpRec)
  saved : Option (List Char)
deriving DecidableEq

/-- ipwatch.py `doTheWork`: load the old record, resolve the current one,
compare the `ip` fields with `!=`, and on a difference send the mail and
persist the new record (joining a `None` field would raise `TypeError`). -/
def doTheWork (stateFile : Option (List Char)) (save_ip_path : List Char)
    (try_count : Nat) (blacklist servers : List (List Char))
    (pick : Nat → Nat) (fetchRes : Nat → List Char) : Except String WorkOut :=
  let oldip := getoldip stateFile save_ip_path
  match getipAndSource try_count blacklist servers pick fetchRes with
  | .error e => .error e
  | .ok (currip, _) =>
    if currip.ip ≠ oldip.ip then
      match currip.ip, currip.server with
      | some i, some sv =>
        .ok { changed := true
            , notified := some (oldip, currip)
            , saved := some (updateoldip i sv) }
      | _, _ => .error "TypeError"
    else
      .ok { changed := false, notified := none, saved := none }

/-! ## ServerCatalog (ipgetter.py `IPgetter.__init__`)

JSON values are modelled by `JVal` (floats carry only their numeric value,
which is all `__init__` uses: an `isinstance(..., float)` test and one
comparison).  The cached file is modelled by its parse result: `none` when
the file is absent, unreadable, or `json.load` failed.  `json.loads` of the
remote body is an oracle `jsonParse`.  `py3` is `six.PY3`: under Python 3
the body read from the socket is `bytes`, and `writeJSONCache` opens its
target in text mode, so writing the raw body raises `TypeError` after the
`open(..., 'w')` call has already truncated/created the file. -/

inductive JVal where
  | jnull
  | jstr (s : List Char)
  | jfloat (x : Int)
  | jint (x : Int)
  | jbool (b : Bool)
  | jlist (xs : List JVal)

abbrev JObj := List (List Char × JVal)

def jlookup (o : JObj) (k : List Char) : Option JVal :=
  (o.find? (fun p => p.1 == k)).map (fun p => p.2)

/-- The `is None` identity test. -/
def isJNull : JVal → Bool
  | .jnull => true
  | _ => false

def isFloat : JVal → Bool
  | .jfloat _ => true
  | _ => false

def isJList : JVal → Bool
  | .jlist _ => true
  | _ => false

def isJStr : JVal → Bool
  | .jstr _ => true
  | _ => false

def jlen : JVal → Nat
  | .jlist xs => xs.length
  | _ => 0

def floatVal : JVal → Int
  | .jfloat x => x
  | _ => 0

def expiryKey : List Char := "expiry".data
def expiryDisplayKey : List Char := "expiryDisplay".data
def serversKey : List Char := "servers".data

/-- The refetch condition of `__init__`, translated clause by clause (the
`len(str(theList["expiry"])) == 0` clause is only evaluated once `expiry` is
known to be a float, and `str` of a float is never empty, so it is omitted). -/
def cacheMiss (theList : Option JObj) (currentTS : Int) : Bool :=
  match theList with
  | none => true
  | some o =>
    match jlookup o expiryKey, jlookup o expiryDisplayKey, jlookup o serversKey with
    | some e, some ed, some sv =>
      isJNull e || isJNull ed || isJNull sv ||
      !isFloat e || !isJList sv || jlen sv == 0 || decide (floatVal e < currentTS)
    | _, _, _ => true

/-- 90 days in seconds, the `timedelta(days=90)` added to `now`. -/
def ninetyDaysSec : Int := 90 * 86400

inductive Remote where
  | resp (code : Nat) (body : List Char)
deriving DecidableEq

structure InitOut where
  result : Except String JVal
  cacheWritten : Option JObj
  errFileAfter : Option (List Char)
  remoteFetched : Bool

/-- ipgetter.py `IPgetter.__init__`.  `cacheParse` is the parse result of the
cache file, `nowTS` the current timestamp, `expiryDisplay` the formatted
date string, `jsonParse` the `json.loads` oracle and `remote` the response to
the server-list GET.  `result` is the `server_list` attribute, or the
exception `__init__` raises. -/
def initIPgetter (py3 : Bool) (cacheParse : Option JObj) (nowTS : Int)
    (expiryDisplay : List Char) (jsonParse : List Char → Option JVal)
    (remote : Remote) : InitOut :=
  if cacheMiss cacheParse nowTS then
    let expiryTS : Int := nowTS + ninetyDaysSec
    match remote with
    | .resp code rawBody =>
      if code == 200 then
        match jsonParse rawBody with
        | some v =>
          let newList : JObj :=
            [(expiryKey, .jfloat expiryTS), (expiryDisplayKey, .jstr expiryDisplay),
             (serversKey, v)]
          { result := .ok v, cacheWritten := some newList,
            errFileAfter := none, remoteFetched := true }
        | none =>
          if py3 then
            { result := .error "TypeError", cacheWritten := none,
              errFileAfter := some [], remoteFetched := true }
          else
            { result := .error "JSONDecodeError", cacheWritten := none,
              errFileAfter := some rawBody, remoteFetched := true }
      else
        { result := .ok (.jlist []), cacheWritten := none,
          errFileAfter := none, remoteFetched := true }
  else
    match cacheParse with
    | some o =>
      { result := .ok ((jlookup o serversKey).getD .jnull), cacheWritten := none,
        errFileAfter := none, remoteFetched := false }
    | none =>
      { result := .error "unreachable", cacheWritten := none,
        errFileAfter := none, remoteFetched := false }

/-- The cache-miss condition as the claim words it: absent/unreadable/
unparseable file, a missing field, a null field, a field of the wrong type
(float for `expiry`, string for `expiryDisplay`, list for `servers`), an
empty server list, or an expiry earlier than now. -/
def claimMissSpec (theList : Option JObj) (currentTS : Int) : Bool :=
  theList.isNone ||
  (theList.bind (fun o => jlookup o expiryKey)).isNone ||
  (theList.bind (fun o => jlookup o expiryDisplayKey)).isNone ||
  (theList.bind (fun o => jlookup o serversKey)).isNone ||
  isJNull ((theList.bind (fun o => jlookup o expiryKey)).getD .jnull) ||
  isJNull ((theList.bind (fun o => jlookup o expiryDisplayKey)).getD .jnull) ||
  isJNull ((theList.bind (fun o => jlookup o serversKey)).getD .jnull) ||
  !isFloat ((theList.bind (fun o => jlookup o expiryKey)).getD .jnull) ||
  !isJStr ((theList.bind (fun o => jlookup o expiryDisplayKey)).getD .jnull) ||
  !isJList ((theList.bind (fun o => jlookup o serversKey)).getD .jnull) ||
  (jlen ((theList.bind (fun o => jlookup o serversKey)).getD .jnull) == 0) ||
  decide (floatVal ((theList.bind (fun o => jlookup o expiryKey)).getD .jnull) < currentTS)

/-- The cache-miss condition as the code actually checks it (the amended
claim): as `claimMissSpec` but with no type check on `expiryDisplay`. -/
def amendedMissSpec (theList : Option JObj) (currentTS : Int) : Bool :=
  theList.isNone ||
  (theList.bind (fun o => jlookup o expiryKey)).isNone ||
  (theList.bind (fun o => jlookup o expiryDisplayKey)).isNone ||
  (theList.bind (fun o => jlookup o serversKey)).isNone ||
  isJNull ((theList.bind (fun o => jlookup o expiryKey)).getD .jnull) ||
  isJNull ((theList.bind (fun o => jlookup o expiryDisplayKey)).getD .jnull) ||
  isJNull ((theList.bind (fun o => jlookup o serversKey)).getD .jnull) ||
  !isFloat ((theList.bind (fun o => jlookup o expiryKey)).getD .jnull) ||
  !isJList ((theList.bind (fun o => jlookup o serversKey)).getD .jnull) ||
  (jlen ((theList.bind (fun o => jlookup o serversKey)).getD .jnull) == 0) ||
  decide (floatVal ((theList.bind (fun o => jlookup o expiryKey)).getD .jnull) < currentTS)

theorem cacheMiss_eq_amended (theList : Option JObj) (currentTS : Int) :
    cacheMiss theList currentTS = amendedMissSpec theList currentTS := by
  match theList with
  | none => rfl
  | some o =>
    cases he : jlookup o expiryKey with
    | none => simp [cacheMiss, amendedMissSpec, he]
    | some e =>
      cases hed : jlookup o expiryDisplayKey with
      | none => simp [cacheMiss, amendedMissSpec, he, hed]
      | some ed =>
        cases hsv : jlookup o serversKey with
        | none => simp [cacheMiss, amendedMissSpec, he, hed, hsv]
        | some sv => simp [cacheMiss, amendedMissSpec, he, hed, hsv]

/-! ## Shared helper lemmas for the claim theorems -/

theorem valid_ip_no_comma (ip : List Char) (h : is_valid_ip ip = true) :
    Char.ofNat 44 ∉ ip :=
  fun hm => valid_char_not_comma _ (valid_ip_chars ip h _ hm) rfl

theorem valid_ip_no_cr (ip : List Char) (h : is_valid_ip ip = true) :
    Char.ofNat 13 ∉ ip :=
  fun hm => valid_char_not_cr _ (valid_ip_chars ip h _ hm) rfl

/-- The written state line strips to itself when the ip is valid and the
server does not end in whitespace. -/
theorem updateoldip_strip (ip server : List Char) (hv : is_valid_ip ip = true)
    (hws : ∀ c, server.getLast? = some c → isPySpace c = false) :
    pyStrip (updateoldip ip server) = updateoldip ip server := by
  apply pyStrip_eq_self
  · intro c hc
    cases hip : ip with
    | nil => exact absurd (hip ▸ hv) (by decide)
    | cons a t =>
      rw [updateoldip, hip, List.cons_append, List.head?_cons] at hc
      obtain rfl : a = c := by simpa using hc
      refine valid_char_not_space a (valid_ip_chars ip hv a ?_)
      rw [hip]
      exact List.mem_cons_self a t
  · intro c hc
    cases hsrv : server with
    | nil =>
      rw [updateoldip, hsrv, List.getLast?_append_cons] at hc
      obtain rfl : Char.ofNat 44 = c := by simpa using hc
      decide
    | cons s ss =>
      rw [updateoldip, hsrv, List.getLast?_append_cons, List.getLast?_cons_cons] at hc
      exact hws c (by rw [hsrv]; exact hc)

/-- The `File '...' not found` sentinel is neither empty nor a string the
extraction regex accepts (it starts with `F`). -/
theorem sentinel_ne_resolved (path s : List Char)
    (hshape : s = [] ∨ fullMatch ipv4RE s = true) :
    fileNotFoundMsg path ≠ s := by
  intro heq
  have hF : Char.ofNat 70 ∈ fileNotFoundMsg path := by
    unfold fileNotFoundMsg
    apply List.mem_append_left
    decide
  rcases hshape with rfl | hm
  · rw [heq] at hF; simp at hF
  · rw [heq] at hF
    rcases fullMatch_ipv4_chars s hm _ hF with hd | hdot
    · exact absurd hd (by decide)
    · exact absurd hdot (by decide)

theorem getoldip_absent (path : List Char) :
    getoldip none path = { ip := some (fileNotFoundMsg path), server := none } := rfl

/-! ## Claim theorems -/

/-- Claim C1, counterexample to the claim as stated: with `tryCount = 1`, a
non-empty pool and an empty blacklist, a run in which every fetch returns the
empty string makes 7 fetch calls (the final counter), not at most 1 — each
round of `getipAndSource` calls `IPgetter.fetch` up to 7 times. -/
theorem C1_counterexample :
    getipAndSource 1 [] ["s".data] (fun _ => 0) (fun _ => []) =
      .ok ({ ip := some [], server := some "s".data }, 7) ∧ ¬ (7 ≤ 1) := by
  exact ⟨rfl, by omega⟩

/-- Claim C1 (amended): for every positive `tryCount`, non-empty pool and
blacklist, the loop invokes the per-server fetch operation at most
`7 * tryCount` times (the returned counter counts fetch calls, one per inner
iteration), and it returns the result of the first round whose record is a
syntactically valid IP address not in the blacklist: some round `k <
tryCount` is returned, every earlier round was unacceptable, and the loop
only reaches round `k + 1` onwards never — it stops at `k` because that round
is acceptable or the budget is exhausted. -/
theorem C1_loop_amended (try_count : Nat) (blacklist servers : List (List Char))
    (pick : Nat → Nat) (fetchRes : Nat → List Char)
    (ht : 1 ≤ try_count) (hs : servers ≠ []) :
    ∃ k, k < try_count ∧
      getipAndSource try_count blacklist servers pick fetchRes =
        nthAttempt servers pick fetchRes 0 k ∧
      (∀ j, j < k → acceptedAtB blacklist servers pick fetchRes 0 j = false) ∧
      (acceptedAtB blacklist servers pick fetchRes 0 k = true ∨ k = try_count - 1) ∧
      (∀ r cf, getipAndSource try_count blacklist servers pick fetchRes = .ok (r, cf) →
        cf ≤ 7 * try_count) := by
  obtain ⟨k, hk, heq, hprev, hlast⟩ :=
    getipAndSource_spec try_count blacklist servers pick fetchRes hs ht
  refine ⟨k, hk, heq, hprev, hlast, ?_⟩
  intro r cf hok
  obtain ⟨j, cf2, heq2, h1, h2, h3⟩ := nthAttempt_spec servers pick fetchRes hs k 0
  rw [heq, heq2] at hok
  have hcf : cf2 = cf := by
    have := congrArg (fun x => match x with
      | Except.ok (p : IpRec × Nat) => p.2
      | Except.error _ => 0) hok
    simpa using this
  omega

theorem C1_witness : ∃ k, k < 1 ∧
    getipAndSource 1 [] ["s".data] (fun _ => 0) (fun _ => "1.2.3.4".data) =
      nthAttempt ["s".data] (fun _ => 0) (fun _ => "1.2.3.4".data) 0 k ∧
    (∀ j, j < k →
      acceptedAtB [] ["s".data] (fun _ => 0) (fun _ => "1.2.3.4".data) 0 j = false) ∧
    (acceptedAtB [] ["s".data] (fun _ => 0) (fun _ => "1.2.3.4".data) 0 k = true ∨
      k = 1 - 1) ∧
    (∀ r cf, getipAndSource 1 [] ["s".data] (fun _ => 0) (fun _ => "1.2.3.4".data) =
        .ok (r, cf) → cf ≤ 7 * 1) :=
  C1_loop_amended 1 [] ["s".data] (fun _ => 0) (fun _ => "1.2.3.4".data)
    (by decide) (by decide)

/-- Claim C2: the claim says an empty server pool makes a resolution run
return a record without raising; the code instead raises `IndexError` from
`random.choice` on the empty list, for every positive `tryCount` — the
failing behaviour backing the `code_bug` verdict. -/
theorem C2_empty_pool_raises (try_count : Nat) (blacklist : List (List Char))
    (pick : Nat → Nat) (fetchRes : Nat → List Char) (ht : 1 ≤ try_count) :
    getipAndSource try_count blacklist [] pick fetchRes = .error "IndexError" := by
  cases try_count with
  | zero => omega
  | succ n =>
    rw [getipAndSource, getipAux_step]
    rfl

theorem C2_witness :
    getipAndSource 1 [] [] (fun _ => 0) (fun _ => []) = .error "IndexError" :=
  C2_empty_pool_raises 1 [] (fun _ => 0) (fun _ => []) (by decide)

/-- Claim C3: `doTheWork` compares the freshly resolved `ip` to the loaded
one by plain equality; when equal it reaches the unchanged state, sends
nothing and writes nothing; when different it reaches the changed state,
hands both records to the notifier and persists the new record. -/
theorem C3_change_detector (stateFile : Option (List Char)) (path : List Char)
    (try_count : Nat) (blacklist servers : List (List Char)) (pick : Nat → Nat)
    (fetchRes : Nat → List Char) (curr : IpRec) (calls : Nat) (i sv : List Char)
    (hres : getipAndSource try_count blacklist servers pick fetchRes = .ok (curr, calls))
    (hi : curr.ip = some i) (hsv : curr.server = some sv) :
    (curr.ip = (getoldip stateFile path).ip →
      doTheWork stateFile path try_count blacklist servers pick fetchRes =
        .ok { changed := false, notified := none, saved := none }) ∧
    (curr.ip ≠ (getoldip stateFile path).ip →
      doTheWork stateFile path try_count blacklist servers pick fetchRes =
        .ok { changed := true, notified := some (getoldip stateFile path, curr),
              saved := some (updateoldip i sv) }) := by
  constructor
  · intro heq
    simp only [doTheWork, hres]
    rw [if_neg (by simp [heq])]
  · intro hne
    simp only [doTheWork, hres]
    rw [if_pos hne]
    simp only [hi, hsv]

theorem C3_witness :
    doTheWork (some "1.2.3.4,src".data) "p".data 1 [] ["s".data] (fun _ => 0)
        (fun _ => "1.2.3.4".data) =
      .ok { changed := false, notified := none, saved := none } :=
  (C3_change_detector (some "1.2.3.4,src".data) "p".data 1 [] ["s".data] (fun _ => 0)
    (fun _ => "1.2.3.4".data) _ _ "1.2.3.4".data "s".data rfl rfl rfl).1 (by rfl)

/-- Claim C4, counterexample to the claim as stated: saving a record whose
server value ends in a space and loading it back does not return the
identical pair — `read().strip()` removes the trailing whitespace. -/
theorem C4_counterexample :
    is_valid_ip "1.2.3.4".data = true ∧
    getoldip (some (updateoldip "1.2.3.4".data "http://a.example,b.example ".data))
        "p".data ≠
      { ip := some "1.2.3.4".data, server := some "http://a.example,b.example ".data } := by
  constructor
  · decide
  · decide

/-- Claim C4 (amended): for every record whose ip is a syntactically valid
address and whose server is a string containing no carriage return and not
ending in strippable whitespace (commas allowed), `updateoldip` followed by
`getoldip` returns exactly the same pair. -/
theorem C4_roundtrip_amended (ip server path : List Char)
    (hv : is_valid_ip ip = true)
    (hcr : Char.ofNat 13 ∉ server)
    (hws : ∀ c, server.getLast? = some c → isPySpace c = false) :
    getoldip (some (updateoldip ip server)) path =
      { ip := some ip, server := some server } := by
  have hnc : Char.ofNat 44 ∉ ip := valid_ip_no_comma ip hv
  have hnl : pyUnivNewlines (updateoldip ip server) = updateoldip ip server := by
    apply pyUnivNewlines_eq_self
    intro hm
    rw [updateoldip] at hm
    rcases List.mem_append.mp hm with hip | hrest
    · exact valid_ip_no_cr ip hv hip
    · rcases List.mem_cons.mp hrest with hcomma | hsrv
      · exact absurd hcomma.symm (by decide)
      · exact hcr hsrv
  have hsplit : splitChar (Char.ofNat 44) (pyStrip (pyUnivNewlines (updateoldip ip server))) =
      ip :: splitChar (Char.ofNat 44) server := by
    rw [hnl, updateoldip_strip ip server hv hws]
    exact splitChar_append_sep _ _ _ hnc
  obtain ⟨x, rest, hxr⟩ : ∃ x rest, splitChar (Char.ofNat 44) server = x :: rest := by
    cases hsc : splitChar (Char.ofNat 44) server with
    | nil => exact absurd hsc (splitChar_ne_nil _ _)
    | cons x rest => exact ⟨x, rest, rfl⟩
  rw [hxr] at hsplit
  have h1 : (ip :: x :: rest).length > 1 := by
    simp only [List.length_cons]
    omega
  simp only [getoldip, hsplit, List.length_cons]
  rw [if_neg (by simp)]
  simp only [List.headD_cons, List.tail_cons, if_pos h1, hv, if_true]
  rw [← hxr, joinChar_splitChar]
  rw [if_pos (show rest.length + 1 + 1 > 1 by omega)]

theorem C4_witness :
    getoldip (some (updateoldip "1.2.3.4".data "http://a.example,b.example".data))
        "p".data =
      { ip := some "1.2.3.4".data, server := some "http://a.example,b.example".data } :=
  C4_roundtrip_amended "1.2.3.4".data "http://a.example,b.example".data "p".data
    (by decide) (by decide) (by decide)

/-- Claim C5: for every environment, `fetch` releases the connection exactly
when one was opened, returns the empty string whenever its `try` block raised,
and its result is either empty or the first IPv4-shaped substring found by
`re.search` in the response body. -/
theorem C5_fetch_contract : ∀ env : FetchEnv,
    (fetch env).connClosed = (fetch env).connOpened ∧
    ((fetchBody env).isOk = false → (fetch env).ip = []) ∧
    ((fetch env).ip = [] ∨
      ∃ t, env = .body t ∧ reSearch ipv4RE t = some (fetch env).ip ∧
        (fetch env).ip ≠ []) := by
  intro env
  cases env with
  | openFail => exact ⟨rfl, fun _ => rfl, Or.inl rfl⟩
  | readFail => exact ⟨rfl, fun _ => rfl, Or.inl rfl⟩
  | decodeFail => exact ⟨rfl, fun _ => rfl, Or.inl rfl⟩
  | body t =>
    refine ⟨rfl, ?_, ?_⟩
    · intro h
      cases hr : reSearch ipv4RE t with
      | none => simp [fetch, fetchBody, hr]
      | some m => simp [fetchBody, hr, Except.isOk, Except.toBool] at h
    · cases hr : reSearch ipv4RE t with
      | none => exact Or.inl (by simp [fetch, fetchBody, hr])
      | some m =>
        cases m with
        | nil => exact Or.inl (by simp [fetch, fetchBody, hr])
        | cons a u =>
          refine Or.inr ⟨t, rfl, ?_, ?_⟩
          · simp [fetch, fetchBody, hr]
          · simp [fetch, fetchBody, hr]

/-- Claim C6: when no round up to the budget produces a valid, non-blacklisted
record (for instance when the blacklist holds the only reachable IP), the loop
exhausts all rounds and returns the last round's record unchanged. -/
theorem C6_exhaustion_returns_last (try_count : Nat)
    (blacklist servers : List (List Char)) (pick : Nat → Nat)
    (fetchRes : Nat → List Char) (ht : 1 ≤ try_count) (hs : servers ≠ [])
    (hall : ∀ j, j < try_count →
      acceptedAtB blacklist servers pick fetchRes 0 j = false) :
    getipAndSource try_count blacklist servers pick fetchRes =
      nthAttempt servers pick fetchRes 0 (try_count - 1) := by
  obtain ⟨k, hk, heq, hprev, hlast⟩ :=
    getipAndSource_spec try_count blacklist servers pick fetchRes hs ht
  rcases hlast with hacc | hke
  · rw [hall k hk] at hacc
    exact absurd hacc (by simp)
  · rw [hke] at heq
    exact heq

theorem C6_witness :
    getipAndSource 2 ["1.2.3.4".data] ["s".data] (fun _ => 0)
        (fun _ => "1.2.3.4".data) =
      nthAttempt ["s".data] (fun _ => 0) (fun _ => "1.2.3.4".data) 0 (2 - 1) :=
  C6_exhaustion_returns_last 2 ["1.2.3.4".data] ["s".data] (fun _ => 0)
    (fun _ => "1.2.3.4".data) (by decide) (by decide) (by decide)

/-- Claim C7: the IPv4 extraction regex, read as an anchored pattern, accepts
exactly the dotted-quad strings of four one-to-three-digit components whose
value is at most 255; in particular it accepts `8.8.8.8` and rejects
`999.1.1.1` and `1.2.3`. -/
theorem C7_regex_characterization :
    (∀ s : List Char, fullMatch ipv4RE s = true ↔ dottedQuadSpec s = true) ∧
    fullMatch ipv4RE "8.8.8.8".data = true ∧
    fullMatch ipv4RE "999.1.1.1".data = false ∧
    fullMatch ipv4RE "1.2.3".data = false :=
  ⟨fullMatch_ipv4_iff_spec, by decide, by decide, by decide⟩

/-- Claim C8, counterexample to the claim as stated: a cached pool whose
`expiryDisplay` field has the wrong type (a number instead of a string) is a
cache-miss by the claim's list of conditions, but the code performs no type
check on `expiryDisplay` and treats the cache as a hit — no remote fetch. -/
theorem C8_counterexample :
    claimMissSpec (some [(expiryKey, .jfloat 10), (expiryDisplayKey, .jint 0),
      (serversKey, .jlist [.jstr "s".data])]) 0 = true ∧
    cacheMiss (some [(expiryKey, .jfloat 10), (expiryDisplayKey, .jint 0),
      (serversKey, .jlist [.jstr "s".data])]) 0 = false ∧
    (initIPgetter true (some [(expiryKey, .jfloat 10), (expiryDisplayKey, .jint 0),
      (serversKey, .jlist [.jstr "s".data])]) 0 [] (fun _ => none)
      (.resp 200 [])).remoteFetched = false := by
  refine ⟨?_, ?_, ?_⟩
  · decide
  · decide
  · rfl

/-- Claim C8 (amended): the catalog treats the cached pool as a cache-miss
exactly when the file is absent/unreadable/unparseable, a field of
{expiry, expiryDisplay, servers} is missing or null, `expiry` is not a
float, `servers` is not a list or is empty, or `expiry` is earlier than the
current time — `expiryDisplay` is checked for presence and non-null only,
not for its type.  On a cache-miss it issues the remote fetch and, when the
200-response body parses, overwrites the cache with a pool whose expiry is
90 days from now. -/
theorem C8_catalog_amended :
    (∀ (theList : Option JObj) (ts : Int),
      cacheMiss theList ts = amendedMissSpec theList ts) ∧
    (∀ (py3 : Bool) (theList : Option JObj) (ts : Int) (disp body : List Char)
      (jsonParse : List Char → Option JVal) (v : JVal),
      cacheMiss theList ts = true → jsonParse body = some v →
      initIPgetter py3 theList ts disp jsonParse (.resp 200 body) =
        { result := .ok v
        , cacheWritten := some [(expiryKey, .jfloat (ts + ninetyDaysSec)),
            (expiryDisplayKey, .jstr disp), (serversKey, v)]
        , errFileAfter := none, remoteFetched := true }) := by
  refine ⟨cacheMiss_eq_amended, ?_⟩
  intro py3 theList ts disp body jsonParse v hmiss hparse
  simp [initIPgetter, hmiss, hparse]

theorem C8_witness :
    initIPgetter true none 0 [] (fun _ => some (.jlist [])) (.resp 200 []) =
      { result := .ok (.jlist [])
      , cacheWritten := some [(expiryKey, .jfloat (0 + ninetyDaysSec)),
          (expiryDisplayKey, .jstr []), (serversKey, .jlist [])]
      , errFileAfter := none, remoteFetched := true } :=
  C8_catalog_amended.2 true none 0 [] [] (fun _ => some (.jlist [])) (.jlist [])
    (by decide) rfl

/-- Claim C9: on a cache-miss with an unparseable 200-response body, the claim
says the raw body is written to the error artifact and the parse failure is
re-raised.  Under Python 2 the code does exactly that; under Python 3 the
response body is `bytes` and the text-mode write itself raises `TypeError`
after `open(..., 'w')` has created/truncated the artifact, so the artifact is
left empty and `TypeError`, not the parse failure, propagates.  In both cases
the run is fatal and the normal cache file is not written. -/
theorem C9_errfile_parse_failure (theList : Option JObj) (ts : Int)
    (disp body : List Char) (jsonParse : List Char → Option JVal)
    (hmiss : cacheMiss theList ts = true) (hparse : jsonParse body = none) :
    initIPgetter true theList ts disp jsonParse (.resp 200 body) =
      { result := .error "TypeError", cacheWritten := none,
        errFileAfter := some [], remoteFetched := true } ∧
    initIPgetter false theList ts disp jsonParse (.resp 200 body) =
      { result := .error "JSONDecodeError", cacheWritten := none,
        errFileAfter := some body, remoteFetched := true } := by
  constructor
  · simp [initIPgetter, hmiss, hparse]
  · simp [initIPgetter, hmiss, hparse]

theorem C9_witness :
    initIPgetter true none 0 [] (fun _ => none) (.resp 200 "notjson".data) =
      { result := .error "TypeError", cacheWritten := none,
        errFileAfter := some [], remoteFetched := true } ∧
    initIPgetter false none 0 [] (fun _ => none) (.resp 200 "notjson".data) =
      { result := .error "JSONDecodeError", cacheWritten := none,
        errFileAfter := some "notjson".data, remoteFetched := true } :=
  C9_errfile_parse_failure none 0 [] "notjson".data (fun _ => none) (by decide) rfl

/-- Claim C10: when the state file is absent, `getoldip` returns the
`File '<path>' not found` sentinel; every freshly resolved ip is either empty
or a full match of the extraction regex, so it can never equal the sentinel;
hence a run with no prior state file always takes the changed branch, emits a
notification and writes the state file. -/
theorem C10_first_run_changed (path : List Char) (try_count : Nat)
    (blacklist servers : List (List Char)) (pick : Nat → Nat)
    (fetchRes : Nat → List Char) (ht : 1 ≤ try_count) (hs : servers ≠ [])
    (hshape : ∀ k, fetchRes k = [] ∨ fullMatch ipv4RE (fetchRes k) = true) :
    ∃ out, doTheWork none path try_count blacklist servers pick fetchRes = .ok out ∧
      out.changed = true ∧ out.notified.isSome = true ∧ out.saved.isSome = true := by
  obtain ⟨k, hk, heq, hprev, hlast⟩ :=
    getipAndSource_spec try_count blacklist servers pick fetchRes hs ht
  obtain ⟨j, cf, heq2, h1, h2, h3⟩ := nthAttempt_spec servers pick fetchRes hs k 0
  have hres : getipAndSource try_count blacklist servers pick fetchRes =
      .ok (attemptRecAt servers pick fetchRes j, cf) := by rw [heq, heq2]
  have hne : (attemptRecAt servers pick fetchRes j).ip ≠ (getoldip none path).ip := by
    simp only [attemptRecAt, getoldip_absent, ne_eq, Option.some.injEq]
    intro hcontra
    exact sentinel_ne_resolved path (fetchRes j) (hshape j) hcontra.symm
  refine ⟨{ changed := true
          , notified := some (getoldip none path, attemptRecAt servers pick fetchRes j)
          , saved := some (updateoldip (fetchRes j) (srvAt servers pick j)) }, ?_, rfl, rfl, rfl⟩
  simp only [doTheWork, hres]
  rw [if_pos hne]
  rfl

theorem C10_witness :
    ∃ out, doTheWork none "p".data 1 [] ["s".data] (fun _ => 0)
        (fun _ => "1.2.3.4".data) = .ok out ∧
      out.changed = true ∧ out.notified.isSome = true ∧ out.saved.isSome = true :=
  C10_first_run_changed "p".data 1 [] ["s".data] (fun _ => 0)
    (fun _ => "1.2.3.4".data) (by decide) (by decide)
    (fun _ => Or.inr (show fullMatch ipv4RE "1.2.3.4".data = true by decide))

end IpWatch
